import Mathlib

/-!
Verification of the ClaudeX streaming proxy (Express server, two variants:
`src/claude-chat/server.js`, the redact variant, and `src/unnamed/part_000`,
the rebrand variant).  JavaScript strings are modelled as `List Char`
(code points), raw byte streams as `List Nat`, JSON values as an inductive
type with numbers kept as their source lexeme, and the HTTP response object
as an ordered event transcript.
-/

namespace ClaudeX

set_option maxRecDepth 100000

/-- Shorthand turning a Lean string literal into the `List Char` model of a
JavaScript string. -/
def S (s : String) : List Char := s.toList

/-! ## Basic character classes (JS semantics) -/

/-- JavaScript whitespace (the `\s` class and the `trim` set): space, tab,
line terminators and the Unicode space separators. -/
def isJsWhite (c : Char) : Bool :=
  c == ' ' || c == '\t' || c == '\n' || (c.toNat == 11) || (c.toNat == 12) ||
  c == '\r' || c.toNat == 0xA0 || c.toNat == 0x1680 ||
  (0x2000 ≤ c.toNat && c.toNat ≤ 0x200A) || c.toNat == 0x2028 ||
  c.toNat == 0x2029 || c.toNat == 0x202F || c.toNat == 0x205F ||
  c.toNat == 0x3000 || c.toNat == 0xFEFF

/-- The regex `\w` class: ASCII letters, digits and underscore. -/
def isWordChar (c : Char) : Bool :=
  ('a' ≤ c && c ≤ 'z') || ('A' ≤ c && c ≤ 'Z') || ('0' ≤ c && c ≤ '9') || c == '_'

def isWordOpt : Option Char → Bool
  | none => false
  | some c => isWordChar c

def isDigitChar (c : Char) : Bool := '0' ≤ c && c ≤ '9'

/-- ASCII lower-casing, the case folding relevant to the `gi` regex flags of
the source's ASCII-only patterns. -/
def lowChar (c : Char) : Char :=
  if 'A' ≤ c && c ≤ 'Z' then Char.ofNat (c.toNat + 32) else c

/-- `String.prototype.trim`. -/
def jsTrim (s : List Char) : List Char :=
  ((s.dropWhile isJsWhite).reverse.dropWhile isJsWhite).reverse

/-- `pat` occurs at the head of `s` (JS `String.prototype.startsWith`). -/
def leadEq : List Char → List Char → Bool
  | [], _ => true
  | _ :: _, [] => false
  | p :: ps, c :: cs => p == c && leadEq ps cs

/-- `pat` (given lower-case) occurs case-insensitively at the head of `s`. -/
def lowEq : List Char → List Char → Bool
  | [], _ => true
  | _ :: _, [] => false
  | p :: ps, c :: cs => p == lowChar c && lowEq ps cs

theorem leadEq_length {p s : List Char} (h : leadEq p s = true) :
    p.length ≤ s.length := by
  induction p generalizing s with
  | nil => simp
  | cons a ps ih =>
    cases s with
    | nil => simp [leadEq] at h
    | cons c cs =>
      simp only [leadEq, Bool.and_eq_true] at h
      simpa [Nat.succ_le_succ_iff] using ih h.2

theorem leadEq_append {p s : List Char} (t : List Char) (h : leadEq p s = true) :
    leadEq p (s ++ t) = true := by
  induction p generalizing s with
  | nil => simp [leadEq]
  | cons a ps ih =>
    cases s with
    | nil => simp [leadEq] at h
    | cons c cs =>
      simp only [leadEq, Bool.and_eq_true] at h
      simp [leadEq, h.1, ih h.2]

theorem leadEq_append_of_le {p s : List Char} (t : List Char)
    (h : p.length ≤ s.length) : leadEq p (s ++ t) = leadEq p s := by
  induction p generalizing s with
  | nil => simp [leadEq]
  | cons a ps ih =>
    cases s with
    | nil => simp at h
    | cons c cs =>
      simp only [List.length_cons, Nat.succ_le_succ_iff] at h
      simp [leadEq, ih h]

/-! ## `String.prototype.split` with a non-empty separator -/

/-- Index of the first occurrence of `sep` in `s` (leftmost match). -/
def findSep (sep : List Char) : List Char → Option Nat
  | [] => none
  | c :: cs => if leadEq sep (c :: cs) then some 0 else (findSep sep cs).map (· + 1)

theorem findSep_ne_nil {sep s : List Char} {i : Nat} (h : findSep sep s = some i) :
    s ≠ [] := by
  cases s with
  | nil => simp [findSep] at h
  | cons c cs => exact List.cons_ne_nil c cs

theorem findSep_bound {sep s : List Char} {i : Nat} (h : findSep sep s = some i) :
    i + sep.length ≤ s.length := by
  induction s generalizing i with
  | nil => simp [findSep] at h
  | cons c cs ih =>
    by_cases hl : leadEq sep (c :: cs) = true
    · simp [findSep, hl] at h
      subst h
      simpa using leadEq_length hl
    · simp [findSep, hl] at h
      obtain ⟨j, hj, rfl⟩ := h
      have := ih hj
      simp [List.length_cons]
      omega

/-- First occurrences are stable under appending further text. -/
theorem findSep_append {sep s : List Char} {i : Nat} (t : List Char)
    (h : findSep sep s = some i) : findSep sep (s ++ t) = some i := by
  induction s generalizing i with
  | nil => simp [findSep] at h
  | cons c cs ih =>
    by_cases hl : leadEq sep (c :: cs) = true
    · simp [findSep, hl] at h
      subst h
      have hl2 : leadEq sep ((c :: cs) ++ t) = true := leadEq_append t hl
      rw [List.cons_append] at hl2
      rw [List.cons_append, findSep, if_pos hl2]
    · simp [findSep, hl] at h
      obtain ⟨j, hj, rfl⟩ := h
      have hb := findSep_bound hj
      have hlen : sep.length ≤ (c :: cs).length := by
        simp [List.length_cons]; omega
      have hl' : leadEq sep (c :: (cs ++ t)) = false := by
        have := @leadEq_append_of_le sep (c :: cs) t hlen
        rw [List.cons_append] at this
        rw [this]
        simpa using hl
      rw [List.cons_append, findSep, if_neg (by simp [hl']), ih hj]
      rfl

/-- Fuel-bounded worker for `jsSplit`; the fuel is an artifact of the
embedding (structural recursion, so concrete inputs evaluate), always
provisioned above the input length. -/
def jsSplitF (sep : List Char) : Nat → List Char → List (List Char)
  | 0, s => [s]
  | fuel + 1, s =>
    match findSep sep s with
    | none => [s]
    | some i => s.take i :: jsSplitF sep fuel (s.drop (i + sep.length))

/-- Model of JavaScript `s.split(sep)` for a non-empty separator:
leftmost, non-overlapping occurrences. -/
def jsSplit (sep : List Char) (s : List Char) : List (List Char) :=
  if sep.isEmpty then [s] else jsSplitF sep (s.length + 1) s

theorem jsSplitF_congr {sep : List Char} (hsep : sep ≠ []) :
    ∀ (f₁ f₂ : Nat) (s : List Char), s.length < f₁ → s.length < f₂ →
      jsSplitF sep f₁ s = jsSplitF sep f₂ s := by
  intro f₁
  induction f₁ with
  | zero => intro f₂ s h₁ _; omega
  | succ n ih =>
    intro f₂ s h₁ h₂
    match f₂, h₂ with
    | m + 1, h₂ =>
      show jsSplitF sep (n + 1) s = jsSplitF sep (m + 1) s
      rw [jsSplitF, jsSplitF]
      match hf : findSep sep s with
      | none => rfl
      | some i =>
        have hb := findSep_bound hf
        have hs : s ≠ [] := findSep_ne_nil hf
        have hpos : 0 < s.length := List.length_pos.mpr hs
        have hsp : 0 < sep.length := List.length_pos.mpr hsep
        have hd : (s.drop (i + sep.length)).length < s.length := by
          simp only [List.length_drop]; omega
        simp only
        rw [ih m (s.drop (i + sep.length)) (by omega) (by omega)]

theorem jsSplit_eq_none {sep s : List Char} (hsep : sep ≠ [])
    (h : findSep sep s = none) : jsSplit sep s = [s] := by
  unfold jsSplit
  rw [if_neg (by simpa [List.isEmpty_iff] using hsep), jsSplitF, h]

theorem jsSplit_eq_some {sep s : List Char} {i : Nat} (hsep : sep ≠ [])
    (h : findSep sep s = some i) :
    jsSplit sep s = s.take i :: jsSplit sep (s.drop (i + sep.length)) := by
  have hb := findSep_bound h
  have hs : s ≠ [] := findSep_ne_nil h
  have hpos : 0 < s.length := List.length_pos.mpr hs
  have hsp : 0 < sep.length := List.length_pos.mpr hsep
  have hd : (s.drop (i + sep.length)).length < s.length := by
    simp only [List.length_drop]; omega
  unfold jsSplit
  rw [if_neg (by simpa [List.isEmpty_iff] using hsep),
    if_neg (by simpa [List.isEmpty_iff] using hsep), jsSplitF, h]
  simp only
  rw [jsSplitF_congr hsep s.length ((s.drop (i + sep.length)).length + 1) (s.drop (i + sep.length)) (by omega) (by omega)]

theorem jsSplit_ne_nil (sep s : List Char) : jsSplit sep s ≠ [] := by
  by_cases hsep : sep = []
  · unfold jsSplit
    rw [if_pos (by simp [hsep])]
    simp
  · match h : findSep sep s with
    | none => rw [jsSplit_eq_none hsep h]; simp
    | some i => rw [jsSplit_eq_some hsep h]; simp

/-- The last, possibly incomplete, piece of a split (the `frames.pop() || ""`
of the source). -/
def lastPiece : List (List Char) → List Char
  | [] => []
  | [x] => x
  | _ :: x :: xs => lastPiece (x :: xs)

theorem lastPiece_cons_cons (a x : List Char) (xs : List (List Char)) :
    lastPiece (a :: x :: xs) = lastPiece (x :: xs) := rfl

/-- Incremental splitting: splitting `a ++ b` processes the complete pieces of
`a` and re-splits the (possibly partial) last piece together with `b`.  This is
the law behind the server's `buffer`-carrying SSE frame loop. -/
theorem jsSplit_append (sep : List Char) (hsep : sep ≠ []) :
    ∀ (n : Nat) (a b : List Char), a.length ≤ n →
      jsSplit sep (a ++ b) =
        (jsSplit sep a).dropLast ++ jsSplit sep (lastPiece (jsSplit sep a) ++ b) := by
  intro n
  induction n with
  | zero =>
    intro a b ha
    have : a = [] := List.length_eq_zero.mp (Nat.le_zero.mp ha)
    subst this
    have hfa : findSep sep ([] : List Char) = none := rfl
    rw [jsSplit_eq_none hsep hfa]
    simp [lastPiece]
  | succ n ih =>
    intro a b ha
    match hfa : findSep sep a with
    | none =>
      -- no separator inside `a`: the whole of `a` is the last piece
      rw [jsSplit_eq_none hsep hfa]
      simp [lastPiece]
    | some i =>
      have hb := findSep_bound hfa
      have hpos : 0 < sep.length := List.length_pos.mpr hsep
      have hfa' : findSep sep (a ++ b) = some i := findSep_append b hfa
      have htake : (a ++ b).take i = a.take i :=
        List.take_append_of_le_length (by omega)
      have hdrop : (a ++ b).drop (i + sep.length) = a.drop (i + sep.length) ++ b :=
        List.drop_append_of_le_length (by omega)
      have hlen : (a.drop (i + sep.length)).length ≤ n := by
        have hane : a ≠ [] := findSep_ne_nil hfa
        have : 0 < a.length := List.length_pos.mpr hane
        simp only [List.length_drop]
        omega
      have hne : jsSplit sep (a.drop (i + sep.length)) ≠ [] := jsSplit_ne_nil sep _
      rw [jsSplit_eq_some hsep hfa', htake, hdrop,
        ih (a.drop (i + sep.length)) b hlen, jsSplit_eq_some hsep hfa,
        List.dropLast_cons_of_ne_nil hne]
      obtain ⟨x, xs, hx⟩ : ∃ x xs, jsSplit sep (a.drop (i + sep.length)) = x :: xs :=
        List.exists_cons_of_ne_nil hne
      rw [hx, lastPiece_cons_cons, List.cons_append]

/-! ## Incremental UTF-8 decoding (`TextDecoder("utf-8")` with `stream: true`)

WHATWG UTF-8 decoder state machine, byte at a time, with the default
BOM-stripping behaviour (`ignoreBOM` unset): the first code point produced by
the stream is dropped when it is U+FEFF. -/

structure Utf8State where
  codepoint : Nat
  needed : Nat
  lower : Nat
  upper : Nat
  atStart : Bool
deriving Repr, DecidableEq

def utf8Init : Utf8State := ⟨0, 0, 0x80, 0xBF, true⟩

/-- Emit one code point, applying the leading-BOM strip. -/
def utf8Emit (st : Utf8State) (cp : Nat) : Utf8State × List Nat :=
  if st.atStart && cp == 0xFEFF then ({ st with atStart := false }, [])
  else ({ st with atStart := false }, [cp])

/-- Process one byte in the initial (no pending sequence) mode. -/
def utf8Fresh (st : Utf8State) (b : Nat) : Utf8State × List Nat :=
  if b ≤ 0x7F then utf8Emit st b
  else if 0xC2 ≤ b && b ≤ 0xDF then
    ({ st with needed := 1, codepoint := b % 32, lower := 0x80, upper := 0xBF }, [])
  else if b == 0xE0 then
    ({ st with needed := 2, codepoint := b % 16, lower := 0xA0, upper := 0xBF }, [])
  else if b == 0xED then
    ({ st with needed := 2, codepoint := b % 16, lower := 0x80, upper := 0x9F }, [])
  else if 0xE1 ≤ b && b ≤ 0xEF then
    ({ st with needed := 2, codepoint := b % 16, lower := 0x80, upper := 0xBF }, [])
  else if b == 0xF0 then
    ({ st with needed := 3, codepoint := b % 8, lower := 0x90, upper := 0xBF }, [])
  else if b == 0xF4 then
    ({ st with needed := 3, codepoint := b % 8, lower := 0x80, upper := 0x8F }, [])
  else if 0xF1 ≤ b && b ≤ 0xF3 then
    ({ st with needed := 3, codepoint := b % 8, lower := 0x80, upper := 0xBF }, [])
  else utf8Emit st 0xFFFD

/-- Process one byte in an arbitrary decoder state. -/
def utf8Byte (st : Utf8State) (b : Nat) : Utf8State × List Nat :=
  if st.needed == 0 then utf8Fresh st b
  else if st.lower ≤ b && b ≤ st.upper then
    let cp := st.codepoint * 64 + b % 64
    if st.needed == 1 then
      utf8Emit { st with needed := 0, codepoint := 0, lower := 0x80, upper := 0xBF } cp
    else ({ st with needed := st.needed - 1, codepoint := cp, lower := 0x80, upper := 0xBF }, [])
  else
    -- invalid continuation byte: error, then the byte is restored to the
    -- stream and reprocessed in the initial mode
    let st1 : Utf8State := { st with needed := 0, codepoint := 0, lower := 0x80, upper := 0xBF }
    let e := utf8Emit st1 0xFFFD
    let f := utf8Fresh e.1 b
    (f.1, e.2 ++ f.2)

def utf8Decode (st : Utf8State) : List Nat → Utf8State × List Nat
  | [] => (st, [])
  | b :: bs =>
    let x := utf8Byte st b
    let y := utf8Decode x.1 bs
    (y.1, x.2 ++ y.2)

theorem utf8Decode_append (st : Utf8State) (a b : List Nat) :
    utf8Decode st (a ++ b) =
      ((utf8Decode (utf8Decode st a).1 b).1,
        (utf8Decode st a).2 ++ (utf8Decode (utf8Decode st a).1 b).2) := by
  induction a generalizing st with
  | nil => simp [utf8Decode]
  | cons x xs ih => simp [utf8Decode, ih, List.append_assoc]

/-! ## The SSE pipe loop (`pipeAnthropicSSEToPlainText`)

The loop state is the decoder state plus the running text buffer; each chunk
is decoded, appended to the buffer, split on the double-newline frame
delimiter, and every complete frame is handed to the per-frame processor. -/

def nlnl : List Char := ['\n', '\n']

theorem nlnl_ne_nil : nlnl ≠ [] := by simp [nlnl]

structure PipeState where
  dec : Utf8State
  buffer : List Char
deriving Repr

def pipeStep (pf : List Char → List (List Char)) (ps : PipeState) (chunk : List Nat) :
    PipeState × List (List Char) :=
  let d := utf8Decode ps.dec chunk
  let pieces := jsSplit nlnl (ps.buffer ++ d.2.map Char.ofNat)
  (⟨d.1, lastPiece pieces⟩, pieces.dropLast.flatMap pf)

def pipeRun (pf : List Char → List (List Char)) : PipeState → List (List Nat) → List (List Char)
  | _, [] => []
  | ps, c :: cs => (pipeStep pf ps c).2 ++ pipeRun pf (pipeStep pf ps c).1 cs

/-- The ordered list of client writes `pipeAnthropicSSEToPlainText` produces
on a given chunked upstream byte stream (per-frame processor `pf`). -/
def pipeWrites (pf : List Char → List (List Char)) (chunks : List (List Nat)) :
    List (List Char) :=
  pipeRun pf ⟨utf8Init, []⟩ chunks

/-- Batch semantics: decode the entire stream, split into frames, process all
complete frames; the trailing incomplete piece is discarded. -/
def batchWrites (pf : List Char → List (List Char)) (bytes : List Nat) :
    List (List Char) :=
  ((jsSplit nlnl ((utf8Decode utf8Init bytes).2.map Char.ofNat)).dropLast).flatMap pf

theorem lastPiece_no_sep {sep : List Char} (hsep : sep ≠ []) (s : List Char) :
    findSep sep (lastPiece (jsSplit sep s)) = none := by
  suffices h : ∀ (n : Nat) (s : List Char), s.length ≤ n →
      findSep sep (lastPiece (jsSplit sep s)) = none by
    exact h s.length s le_rfl
  intro n
  induction n with
  | zero =>
    intro s hs
    have : s = [] := List.length_eq_zero.mp (Nat.le_zero.mp hs)
    subst this
    rw [jsSplit_eq_none hsep (show findSep sep [] = none from rfl)]
    rfl
  | succ n ih =>
    intro s hs
    match hfs : findSep sep s with
    | none => rw [jsSplit_eq_none hsep hfs]; exact hfs
    | some i =>
      have hb := findSep_bound hfs
      have hpos : 0 < sep.length := List.length_pos.mpr hsep
      have hsne : s ≠ [] := findSep_ne_nil hfs
      have hlen : (s.drop (i + sep.length)).length ≤ n := by
        have : 0 < s.length := List.length_pos.mpr hsne
        simp only [List.length_drop]
        omega
      rw [jsSplit_eq_some hsep hfs]
      obtain ⟨x, xs, hx⟩ : ∃ x xs, jsSplit sep (s.drop (i + sep.length)) = x :: xs :=
        List.exists_cons_of_ne_nil (jsSplit_ne_nil sep _)
      rw [hx, lastPiece_cons_cons, ← hx]
      exact ih _ hlen

/-- The pipe loop computes the batch semantics of the concatenated stream,
for any buffer that (as the loop invariant guarantees) holds no complete
frame delimiter. -/
theorem pipeRun_eq_batch (pf : List Char → List (List Char)) :
    ∀ (chunks : List (List Nat)) (st : Utf8State) (buf : List Char),
      findSep nlnl buf = none →
      pipeRun pf ⟨st, buf⟩ chunks =
        ((jsSplit nlnl (buf ++ (utf8Decode st chunks.flatten).2.map Char.ofNat)).dropLast).flatMap pf := by
  intro chunks
  induction chunks with
  | nil =>
    intro st buf hbuf
    have : (utf8Decode st ([] : List (List Nat)).flatten).2 = [] := by
      simp [List.flatten, utf8Decode]
    rw [pipeRun, this]
    simp only [List.map_nil, List.append_nil]
    rw [jsSplit_eq_none nlnl_ne_nil hbuf]
    rfl
  | cons c cs ih =>
    intro st buf hbuf
    rw [pipeRun, pipeStep]
    simp only
    set d := utf8Decode st c with hd
    set pieces := jsSplit nlnl (buf ++ d.2.map Char.ofNat) with hp
    have hbuf' : findSep nlnl (lastPiece pieces) = none :=
      lastPiece_no_sep nlnl_ne_nil _
    rw [ih d.1 (lastPiece pieces) hbuf']
    have hjoin : (c :: cs).flatten = c ++ cs.flatten := rfl
    rw [hjoin, utf8Decode_append]
    simp only [← hd, List.map_append]
    rw [← List.append_assoc,
      jsSplit_append nlnl nlnl_ne_nil (buf ++ d.2.map Char.ofNat).length _ _ le_rfl, ← hp]
    rw [List.dropLast_append_of_ne_nil _ (jsSplit_ne_nil nlnl _)]
    simp [List.flatMap_append]

/-- The client-write sequence is a function of the concatenated bytes only. -/
theorem pipeWrites_eq_batch (pf : List Char → List (List Char))
    (chunks : List (List Nat)) :
    pipeWrites pf chunks = batchWrites pf chunks.flatten := by
  rw [pipeWrites, pipeRun_eq_batch pf chunks utf8Init [] rfl, batchWrites]
  rfl

/-! ## JSON (`JSON.parse` and the payload field probes)

JSON values keep numbers as their source lexeme; no numeric value of a
payload ever matters to the pipeline.  A parse returning `none` models a
thrown `SyntaxError`. -/

inductive Json where
  | null : Json
  | bool : Bool → Json
  | num : List Char → Json
  | str : List Char → Json
  | arr : List Json → Json
  | obj : List (List Char × Json) → Json
deriving Inhabited

/-- JSON whitespace (as skipped by `JSON.parse`). -/
def isJsonWs (c : Char) : Bool := c == ' ' || c == '\t' || c == '\n' || c == '\r'

def skipWs (s : List Char) : List Char := s.dropWhile isJsonWs

def hexVal (c : Char) : Option Nat :=
  match c.toNat with
  | n =>
    if 48 ≤ n && n ≤ 57 then some (n - 48)
    else if 97 ≤ n && n ≤ 102 then some (n - 87)
    else if 65 ≤ n && n ≤ 70 then some (n - 55)
    else none

/-- Decode one `\uXXXX` escape; returns the code unit and the rest. -/
def parseU (s : List Char) : Option (Nat × List Char) :=
  match s with
  | a :: b :: c :: d :: rest =>
    match hexVal a, hexVal b, hexVal c, hexVal d with
    | some x, some y, some z, some w => some (((x * 16 + y) * 16 + z) * 16 + w, rest)
    | _, _, _, _ => none
  | _ => none

/-- Body of a JSON string literal, after the opening quote.  UTF-16 surrogate
escape pairs are combined into the code point; a lone surrogate escape maps to
U+FFFD (our code-point string model cannot carry lone surrogates).  The fuel
argument is an implementation artifact of the shallow embedding; callers pass
far more fuel than one unit per consumed character, so it never runs out. -/
def pStr : Nat → List Char → Option (List Char × List Char)
  | 0, _ => none
  | _ + 1, [] => none
  | fuel + 1, c :: cs =>
    if c == '"' then some ([], cs)
    else if c == '\\' then
      match cs with
      | [] => none
      | e :: es =>
        let unesc : Option (Char × List Char) :=
          if e == '"' then some ('"', es)
          else if e == '\\' then some ('\\', es)
          else if e == '/' then some ('/', es)
          else if e == 'b' then some (Char.ofNat 8, es)
          else if e == 'f' then some (Char.ofNat 12, es)
          else if e == 'n' then some ('\n', es)
          else if e == 'r' then some ('\r', es)
          else if e == 't' then some ('\t', es)
          else none
        match unesc with
        | some (ch, rest) =>
          match pStr fuel rest with
          | some (t, r) => some (ch :: t, r)
          | none => none
        | none =>
          if e == 'u' then
            match parseU es with
            | none => none
            | some (u, rest) =>
              if 0xD800 ≤ u && u ≤ 0xDBFF then
                match rest with
                | '\\' :: 'u' :: rest2 =>
                  match parseU rest2 with
                  | some (u2, rest3) =>
                    if 0xDC00 ≤ u2 && u2 ≤ 0xDFFF then
                      match pStr fuel rest3 with
                      | some (t, r) =>
                        some (Char.ofNat (0x10000 + (u - 0xD800) * 0x400 + (u2 - 0xDC00)) :: t, r)
                      | none => none
                    else
                      match pStr fuel rest with
                      | some (t, r) => some (Char.ofNat 0xFFFD :: t, r)
                      | none => none
                  | none =>
                    match pStr fuel rest with
                    | some (t, r) => some (Char.ofNat 0xFFFD :: t, r)
                    | none => none
                | _ =>
                  match pStr fuel rest with
                  | some (t, r) => some (Char.ofNat 0xFFFD :: t, r)
                  | none => none
              else if 0xDC00 ≤ u && u ≤ 0xDFFF then
                match pStr fuel rest with
                | some (t, r) => some (Char.ofNat 0xFFFD :: t, r)
                | none => none
              else
                match pStr fuel rest with
                | some (t, r) => some (Char.ofNat u :: t, r)
                | none => none
          else none
    else if c.toNat < 0x20 then none
    else
      match pStr fuel cs with
      | some (t, r) => some (c :: t, r)
      | none => none

/-- Numeric literal: sign, integer part, optional fraction and exponent;
returns the lexeme. -/
def pNum (s : List Char) : Option (List Char × List Char) :=
  let (neg, s1) := match s with
    | '-' :: r => (['-'], r)
    | _ => (([] : List Char), s)
  match s1 with
  | [] => none
  | c :: _ =>
    if !isDigitChar c then none
    else
      let intLex : List Char × List Char :=
        if c == '0' then (['0'], s1.drop 1)
        else (s1.takeWhile isDigitChar, s1.dropWhile isDigitChar)
      let (ilex, s2) := intLex
      let fr : Option (List Char × List Char) :=
        match s2 with
        | '.' :: r =>
          let ds := r.takeWhile isDigitChar
          if ds == [] then none else some ('.' :: ds, r.dropWhile isDigitChar)
        | _ => some ([], s2)
      match fr with
      | none => none
      | some (flex, s3) =>
        let ex : Option (List Char × List Char) :=
          match s3 with
          | e :: r =>
            if e == 'e' || e == 'E' then
              let (slex, r2) := match r with
                | '+' :: r2 => (['+'], r2)
                | '-' :: r2 => (['-'], r2)
                | _ => (([] : List Char), r)
              let ds := r2.takeWhile isDigitChar
              if ds == [] then none
              else some (e :: (slex ++ ds), r2.dropWhile isDigitChar)
            else some ([], s3)
          | [] => some ([], s3)
        match ex with
        | none => none
        | some (elex, s4) => some (neg ++ ilex ++ flex ++ elex, s4)

mutual

/-- One JSON value (leading whitespace already allowed); fuel-bounded. -/
def pVal : Nat → List Char → Option (Json × List Char)
  | 0, _ => none
  | fuel + 1, s =>
    match skipWs s with
    | [] => none
    | c :: cs =>
      if c == '{' then pObj fuel cs true
      else if c == '[' then pArr fuel cs true
      else if c == '"' then
        match pStr fuel cs with
        | some (t, r) => some (Json.str t, r)
        | none => none
      else if c == 't' then
        match cs with
        | 'r' :: 'u' :: 'e' :: r => some (Json.bool true, r)
        | _ => none
      else if c == 'f' then
        match cs with
        | 'a' :: 'l' :: 's' :: 'e' :: r => some (Json.bool false, r)
        | _ => none
      else if c == 'n' then
        match cs with
        | 'u' :: 'l' :: 'l' :: r => some (Json.null, r)
        | _ => none
      else
        match pNum (c :: cs) with
        | some (lex, r) => some (Json.num lex, r)
        | none => none

/-- Object members after `{`; `first` marks that no member was read yet. -/
def pObj : Nat → List Char → Bool → Option (Json × List Char)
  | 0, _, _ => none
  | fuel + 1, s, first =>
    match skipWs s with
    | [] => none
    | c :: cs =>
      if c == '}' && first then some (Json.obj [], cs)
      else
        match pMembers fuel (c :: cs) with
        | some (ms, r) => some (Json.obj ms, r)
        | none => none

/-- A non-empty comma-separated member list, then `}`. -/
def pMembers : Nat → List Char → Option (List (List Char × Json) × List Char)
  | 0, _ => none
  | fuel + 1, s =>
    match skipWs s with
    | '"' :: cs =>
      match pStr fuel cs with
      | none => none
      | some (k, r) =>
        match skipWs r with
        | ':' :: r2 =>
          match pVal fuel r2 with
          | none => none
          | some (v, r3) =>
            match skipWs r3 with
            | ',' :: r4 =>
              match pMembers fuel r4 with
              | some (ms, r5) => some ((k, v) :: ms, r5)
              | none => none
            | '}' :: r4 => some ([(k, v)], r4)
            | _ => none
        | _ => none
    | _ => none

/-- Array elements after `[`; `first` marks that no element was read yet. -/
def pArr : Nat → List Char → Bool → Option (Json × List Char)
  | 0, _, _ => none
  | fuel + 1, s, first =>
    match skipWs s with
    | [] => none
    | c :: cs =>
      if c == ']' && first then some (Json.arr [], cs)
      else
        match pElems fuel (c :: cs) with
        | some (vs, r) => some (Json.arr vs, r)
        | none => none

/-- A non-empty comma-separated element list, then `]`. -/
def pElems : Nat → List Char → Option (List Json × List Char)
  | 0, _ => none
  | fuel + 1, s =>
    match pVal fuel s with
    | none => none
    | some (v, r) =>
      match skipWs r with
      | ',' :: r2 =>
        match pElems fuel r2 with
        | some (vs, r3) => some (v :: vs, r3)
        | none => none
      | ']' :: r2 => some ([v], r2)
      | _ => none

end

/-- `JSON.parse`: one value, then only trailing whitespace. -/
def jsonParse (s : List Char) : Option Json :=
  match pVal (10 * s.length + 10) s with
  | some (v, r) => if skipWs r == [] then some v else none
  | none => none

/-- Property lookup on a parsed JSON value (`undefined` is `none`).  Objects
built by `JSON.parse` keep the last of duplicate keys. -/
def jsonGet (j : Json) (k : List Char) : Option Json :=
  match j with
  | Json.obj fs => ((fs.filter (fun p => p.1 == k)).getLast?).map (fun p => p.2)
  | _ => none

/-! ## The concrete regexes of the source, as backtracking matchers

A matcher takes the character preceding the current position (for the `\b`
assertions) and the remaining text, and returns the length of the match at
this position chosen by the JavaScript engine (ordered alternation, greedy
quantifiers with backtracking), or `none`. -/

/-- Word-boundary test between the character at index `n - 1` of `s` and the
character at index `n` (i.e. after `n` matched characters). -/
def tailBnd (s : List Char) (n : Nat) : Bool :=
  isWordOpt (s.get? (n - 1)) != isWordOpt (s.get? n)

/-- Length of the run of ASCII digits at the head of `s` (greedy `\d*`). -/
def digitRun (s : List Char) : Nat := (s.takeWhile isDigitChar).length

/-- Candidate match lengths of `GPT[-\s]?\d*` after the three characters
`GPT` matched, in the engine's backtracking order: separator present first,
digits from greedy to empty. -/
def gptCands (s : List Char) : List Nat :=
  let afterGpt := s.drop 3
  let withSep :=
    match afterGpt with
    | d :: rest =>
      if d == '-' || isJsWhite d then
        ((List.range (digitRun rest + 1)).reverse).map (fun k => 4 + k)
      else []
    | [] => []
  let noSep := ((List.range (digitRun afterGpt + 1)).reverse).map (fun k => 3 + k)
  withSep ++ noSep

/-- `/\b(Claude|Anthropic|OpenAI|ChatGPT|GPT[-\s]?\d*)\b/gi` at one
position. -/
def vendorMatch (prev : Option Char) (s : List Char) : Option Nat :=
  if isWordOpt prev then none
  else
    let lits : List (List Char) := [S "claude", S "anthropic", S "openai", S "chatgpt"]
    match lits.findSome? (fun lit =>
        if lowEq lit s && tailBnd s lit.length then some lit.length else none) with
    | some n => some n
    | none =>
      if lowEq (S "gpt") s then (gptCands s).find? (fun n => tailBnd s n)
      else none

/-- `/\b(<phrases>)\b[^.\n]*[.\n]?/gi` at one position (the attribution-clause
patterns; the rebrand variant adds the phrase `made by`). -/
def attribMatch (phrases : List (List Char)) (prev : Option Char) (s : List Char) :
    Option Nat :=
  if isWordOpt prev then none
  else
    match phrases.findSome? (fun ph =>
        if lowEq ph s && tailBnd s ph.length then some ph.length else none) with
    | none => none
    | some plen =>
      let body := ((s.drop plen).takeWhile (fun c => !(c == '.' || c == '\n'))).length
      let term :=
        match s.drop (plen + body) with
        | c :: _ => if c == '.' || c == '\n' then 1 else 0
        | [] => 0
      some (plen + body + term)

def attribPhrasesRedact : List (List Char) :=
  [S "trained by", S "developed by", S "powered by", S "built by", S "created by"]

def attribPhrasesRebrand : List (List Char) :=
  attribPhrasesRedact ++ [S "made by"]

/-- `/\bAI safety company\b/gi` at one position. -/
def aiscMatch (prev : Option Char) (s : List Char) : Option Nat :=
  if isWordOpt prev then none
  else
    let lit := S "ai safety company"
    if lowEq lit s && tailBnd s lit.length then some lit.length else none

/-- Fuel-bounded worker for `scanGo` (structural recursion so concrete
inputs evaluate; the fuel is always provisioned above the input length). -/
def scanGoF (m : Option Char → List Char → Option Nat) (repl : List Char) :
    Nat → Option Char → List Char → List Char
  | 0, _, s => s
  | _ + 1, _, [] => []
  | fuel + 1, prev, c :: cs =>
    match m prev (c :: cs) with
    | some (n + 1) =>
      repl ++ scanGoF m repl fuel (some ((c :: cs).getD n ' ')) ((c :: cs).drop (n + 1))
    | _ => c :: scanGoF m repl fuel (some c) cs

/-- Global regex replace (`String.prototype.replace` with the `g` flag): scan
left to right, replace each match, resume after its last character. -/
def scanGo (m : Option Char → List Char → Option Nat) (repl : List Char)
    (prev : Option Char) (s : List Char) : List Char :=
  scanGoF m repl (s.length + 1) prev s

theorem scanGoF_congr (m : Option Char → List Char → Option Nat) (repl : List Char) :
    ∀ (f₁ f₂ : Nat) (prev : Option Char) (s : List Char),
      s.length < f₁ → s.length < f₂ →
      scanGoF m repl f₁ prev s = scanGoF m repl f₂ prev s := by
  intro f₁
  induction f₁ with
  | zero => intro f₂ prev s h₁ _; omega
  | succ n ih =>
    intro f₂ prev s h₁ h₂
    match f₂, h₂ with
    | m₂ + 1, h₂ =>
      match s with
      | [] => rfl
      | c :: cs =>
        show scanGoF m repl (n + 1) prev (c :: cs) =
          scanGoF m repl (m₂ + 1) prev (c :: cs)
        rw [scanGoF, scanGoF]
        simp only [List.length_cons] at h₁ h₂
        match m prev (c :: cs) with
        | some (k + 1) =>
          simp only
          have hd : ((c :: cs).drop (k + 1)).length < cs.length + 1 := by
            simp only [List.length_drop, List.length_cons]
            omega
          rw [ih m₂ (some ((c :: cs).getD k ' ')) ((c :: cs).drop (k + 1)) (by omega) (by omega)]
        | some 0 =>
          simp only
          rw [ih m₂ (some c) cs (by omega) (by omega)]
        | none =>
          simp only
          rw [ih m₂ (some c) cs (by omega) (by omega)]

theorem scanGo_nil (m : Option Char → List Char → Option Nat) (repl : List Char)
    (prev : Option Char) : scanGo m repl prev [] = [] := rfl

/-- The one-step unfolding of `scanGo` on a non-empty input. -/
theorem scanGo_cons (m : Option Char → List Char → Option Nat) (repl : List Char)
    (prev : Option Char) (c : Char) (cs : List Char) :
    scanGo m repl prev (c :: cs) =
      match m prev (c :: cs) with
      | some (n + 1) =>
        repl ++ scanGo m repl (some ((c :: cs).getD n ' ')) ((c :: cs).drop (n + 1))
      | _ => c :: scanGo m repl (some c) cs := by
  cases hm : m prev (c :: cs) with
  | none =>
    show scanGoF m repl ((c :: cs).length + 1) prev (c :: cs) =
      c :: scanGo m repl (some c) cs
    rw [show (c :: cs).length + 1 = cs.length + 1 + 1 from rfl, scanGoF, hm]
    rfl
  | some n =>
    cases n with
    | zero =>
      show scanGoF m repl ((c :: cs).length + 1) prev (c :: cs) =
        c :: scanGo m repl (some c) cs
      rw [show (c :: cs).length + 1 = cs.length + 1 + 1 from rfl, scanGoF, hm]
      rfl
    | succ k =>
      show scanGoF m repl ((c :: cs).length + 1) prev (c :: cs) =
        repl ++ scanGo m repl (some ((c :: cs).getD k ' ')) ((c :: cs).drop (k + 1))
      rw [show (c :: cs).length + 1 = cs.length + 1 + 1 from rfl, scanGoF, hm]
      show repl ++ scanGoF m repl (cs.length + 1)
          (some ((c :: cs).getD k ' ')) ((c :: cs).drop (k + 1)) = _
      rw [scanGoF_congr m repl (cs.length + 1) (((c :: cs).drop (k + 1)).length + 1)
        (some ((c :: cs).getD k ' ')) ((c :: cs).drop (k + 1))
        (by simp only [List.length_drop, List.length_cons]; omega)
        (by omega)]
      rfl

/-- `enforceNoProviderLeak` of `src/claude-chat/server.js`: vendor names to a
neutral placeholder, then attribution clauses stripped. -/
def enforceNoProviderLeak (text : List Char) : List Char :=
  if text == [] then text
  else
    let out1 := scanGo vendorMatch (S "this assistant") none text
    scanGo (attribMatch attribPhrasesRedact) [] none out1

/-- `enforceBranding` of `src/unnamed/part_000`: vendor names to the brand
model, attribution clauses to the maker line, `AI safety company`
softened. -/
def enforceBranding (text : List Char) : List Char :=
  if text == [] then text
  else
    let out1 := scanGo vendorMatch (S "ClaudeX") none text
    let out2 := scanGo (attribMatch attribPhrasesRebrand) (S "made by M Alkindi. ") none out1
    scanGo aiscMatch (S "team") none out2

/-! ## The identity-probe test (`isIdentityProbe`, rebrand variant) -/

/-- The flattened alternatives of the identity-probe regex. -/
def probeLits : List (List Char) :=
  [S "who are you", S "who made you", S "who built you",
   S "what model are you", S "what llm are you", S "which model",
   S "are you claude", S "are you chatgpt", S "are you gpt",
   S "anthropic", S "openai", S "claude", S "chatgpt", S "gpt"]

/-- Does any probe alternative match, word-bounded, at this position? -/
def probeHit (prev : Option Char) (s : List Char) : Bool :=
  !isWordOpt prev &&
    probeLits.any (fun lit => lowEq lit s && tailBnd s lit.length)

/-- `RegExp.prototype.test`: does the probe pattern match anywhere? -/
def probeScan : Option Char → List Char → Bool
  | _, [] => false
  | prev, c :: cs => probeHit prev (c :: cs) || probeScan (some c) cs

/-! ## `String(x)` coercion, `safeString`, `normalizeMessages` -/

mutual

/-- JavaScript `String(v)` on a JSON value (numbers render as their lexeme,
an immaterial simplification: no claim depends on number formatting). -/
def jsToString : Json → List Char
  | Json.null => S "null"
  | Json.bool true => S "true"
  | Json.bool false => S "false"
  | Json.num raw => raw
  | Json.str s => s
  | Json.arr l => jsArrString l
  | Json.obj _ => S "[object Object]"

/-- `Array.prototype.toString`: elements joined by commas, `null` elements
rendering empty. -/
def jsArrString : List Json → List Char
  | [] => []
  | [x] => jsArrElem x
  | x :: y :: xs => jsArrElem x ++ [','] ++ jsArrString (y :: xs)

def jsArrElem : Json → List Char
  | Json.null => []
  | v => jsToString v

end

/-- `safeString(x, max)`: `String(x ?? "")` truncated to `max` code units
(`none` models `undefined`; `jsToString` is inlined on the non-recursive
constructors). -/
def safeString (x : Option Json) (max : Nat) : List Char :=
  (match x with
    | none => []
    | some Json.null => []
    | some (Json.bool true) => S "true"
    | some (Json.bool false) => S "false"
    | some (Json.num raw) => raw
    | some (Json.str s) => s
    | some (Json.obj _) => S "[object Object]"
    | some (Json.arr l) => jsToString (Json.arr l)).take max

/-- JavaScript truthiness of a JSON value. -/
def jsTruthy : Json → Bool
  | Json.null => false
  | Json.bool b => b
  | Json.num raw =>
    -- a numeric literal is falsy exactly when its value is zero
    !((raw.filter (fun c => !(c == '-' || c == '.'))).takeWhile
        (fun c => !(c == 'e' || c == 'E'))).all (fun c => c == '0')
  | Json.str s => !(s == [])
  | Json.arr _ => true
  | Json.obj _ => true

/-- A normalized chat message: the source's
`{ role, content: [{ type: "text", text }] }`. -/
structure NormMsg where
  role : List Char
  text : List Char
deriving Repr, DecidableEq

/-- One iteration of the `normalizeMessages` loop: `none` when the element is
skipped (`continue`). -/
def normOne (m : Json) : Option NormMsg :=
  if !jsTruthy m then none
  else
    match jsonGet m (S "role") with
    | some (Json.str r) =>
      if r == S "user" || r == S "assistant" then
        if jsTrim (safeString (jsonGet m (S "content")) 12000) == [] then none
        else some ⟨r, jsTrim (safeString (jsonGet m (S "content")) 12000)⟩
      else none
    | _ => none

/-- `normalizeMessages` (identical in both variants): keep only truthy
elements with role `user` or `assistant` and non-empty trimmed, truncated,
string-coerced content; `none` models the `null` returns. -/
def normalizeMessages (messages : Option Json) : Option (List NormMsg) :=
  match messages with
  | some (Json.arr ms) =>
    if ms.filterMap normOne == [] then none else some (ms.filterMap normOne)
  | _ => none

/-! ## `clampNumber` and the numeric call sites -/

/-- A JavaScript number (exact-value model; `NaN` explicit). -/
inductive JsNum where
  | nan : JsNum
  | val : ℚ → JsNum

/-- `clampNumber(n, min, max, fallback)`; `none` models a non-number
argument. -/
def clampNumber (n : Option JsNum) (mn mx fallback : ℚ) : ℚ :=
  match n with
  | some (JsNum.val q) => min mx (max mn q)
  | _ => fallback

/-- Decimal digits to a natural number. -/
def digitsNat (l : List Char) : Nat :=
  l.foldl (fun a c => a * 10 + (c.toNat - '0'.toNat)) 0

/-- Exact value of a JSON numeric lexeme:
`sign * mantissa * 10^(exponent - fraction length)`. -/
def numVal (raw : List Char) : ℚ :=
  let (neg, s1) : Bool × List Char := match raw with
    | '-' :: r => (true, r)
    | _ => (false, raw)
  let intPart := s1.takeWhile isDigitChar
  let s2 := s1.dropWhile isDigitChar
  let (fracPart, s3) : List Char × List Char := match s2 with
    | '.' :: r => (r.takeWhile isDigitChar, r.dropWhile isDigitChar)
    | _ => ([], s2)
  let (eneg, edigits) : Bool × List Char := match s3 with
    | _ :: '-' :: ds => (true, ds)
    | _ :: '+' :: ds => (false, ds)
    | _ :: ds => (false, ds)
    | [] => (false, [])
  let e := digitsNat edigits
  let mantissa : ℤ := Int.ofNat (digitsNat (intPart ++ fracPart))
  let sgnm : ℤ := if neg then -mantissa else mantissa
  if eneg then mkRat sgnm (Nat.pow 10 (fracPart.length + e))
  else mkRat (sgnm * Int.ofNat (Nat.pow 10 e)) (Nat.pow 10 fracPart.length)

/-- The number, if any, a JSON field value holds (`typeof x === "number"`). -/
def jsonNum : Option Json → Option JsNum
  | some (Json.num raw) => some (JsNum.val (numVal raw))
  | _ => none

/-- The `temperature` argument built at the call site
`clampNumber(body.temperature, 0, 1, 0.3)`. -/
def tempOf (body : Json) : ℚ :=
  clampNumber (jsonNum (jsonGet body (S "temperature"))) 0 1 (3 / 10)

/-- The `max_tokens` argument built at the call site
`Math.floor(clampNumber(body.max_tokens, 64, 1500, 800))`. -/
def maxTokOf (body : Json) : ℤ :=
  Int.floor (clampNumber (jsonNum (jsonGet body (S "max_tokens"))) 64 1500 800)

/-! ## SSE data-line and frame processing -/

def dataHead : List Char := S "data: "

def errSentinel : List Char := S "\n\n[error] Something went wrong."

/-- `payload?.type === t`. -/
def jsonTypeIs (p : Json) (t : List Char) : Bool :=
  match jsonGet p (S "type") with
  | some (Json.str v) => v == t
  | _ => false

/-- `payload?.delta?.text` when it is a string. -/
def deltaTextOf (p : Json) : Option (List Char) :=
  match jsonGet p (S "delta") with
  | some d =>
    match jsonGet d (S "text") with
    | some (Json.str t) => some t
    | _ => none
  | _ => none

/-- The client writes produced from one parsed payload (rewriter `rw`). -/
def payloadWrites (rw : List Char → List Char) (p : Json) : List (List Char) :=
  (if jsonTypeIs p (S "content_block_delta") then
    match deltaTextOf p with
    | some t => if t == [] then [] else [rw t]
    | none => []
  else []) ++
  (if jsonTypeIs p (S "error") then [errSentinel] else [])

/-- Processing of one `data: ` line: strip the head, trim, discard empty and
`[DONE]` payloads, parse, and emit the payload's writes; a parse failure
yields nothing. -/
def processDataLine (rw : List Char → List Char) (line : List Char) : List (List Char) :=
  if jsTrim (line.drop dataHead.length) == [] ||
      jsTrim (line.drop dataHead.length) == S "[DONE]" then []
  else
    match jsonParse (jsTrim (line.drop dataHead.length)) with
    | none => []
    | some p => payloadWrites rw p

/-- The `data: ` lines of a frame, in order. -/
def dataLinesOf (frame : List Char) : List (List Char) :=
  (jsSplit ['\n'] frame).filter (fun line => leadEq dataHead line)

/-- Frame processing in `src/claude-chat/server.js`: only the *first*
`data: ` line of the frame is examined (`.find(...)`). -/
def processFrameServer (frame : List Char) : List (List Char) :=
  match (jsSplit ['\n'] frame).find? (fun line => leadEq dataHead line) with
  | none => []
  | some line => processDataLine enforceNoProviderLeak line

/-- Frame processing in `src/unnamed/part_000`: every `data: ` line of the
frame is processed, in order (`.filter(...)` and an inner loop). -/
def processFrameRebrand (frame : List Char) : List (List Char) :=
  (dataLinesOf frame).flatMap (processDataLine enforceBranding)

/-! ## The `/api/chat/stream` route handlers as response transcripts

The Express/Node response object is modelled as the ordered list of effects
the handler performs on it.  `flush` models `res.flushHeaders()`; once the
headers have been flushed (explicitly or by the first body write), the wire
status can no longer change — later `res.status(...)` calls are inert. -/

inductive REvent where
  | hdr (name value : List Char)
  | flush
  | statusSet (n : Nat)
  | jsonBody (s : List Char)
  | write (s : List Char)
  | resEnd (s : List Char)
  | callUpstream (model system : List Char) (temp : ℚ) (maxTok : ℤ) (msgs : List NormMsg)
  | logErr (upstreamStatus : Nat) (detail : List Char)
deriving Repr, DecidableEq

/-- The HTTP status actually sent to the client: the last `res.status` value
before the headers first go out (Node ignores status changes afterwards). -/
def wireStatus : Nat → List REvent → Nat
  | cur, [] => cur
  | _, REvent.statusSet n :: es => wireStatus n es
  | cur, REvent.flush :: _ => cur
  | cur, REvent.write _ :: _ => cur
  | cur, REvent.resEnd _ :: _ => cur
  | cur, REvent.jsonBody _ :: _ => cur
  | cur, REvent.hdr _ _ :: es => wireStatus cur es
  | cur, REvent.callUpstream _ _ _ _ _ :: es => wireStatus cur es
  | cur, REvent.logErr _ _ :: es => wireStatus cur es

/-- The response body bytes the client receives, in order. -/
def clientBody (es : List REvent) : List Char :=
  es.flatMap (fun e =>
    match e with
    | REvent.write s => s
    | REvent.resEnd s => s
    | REvent.jsonBody s => s
    | _ => [])

/-- Was the outbound upstream request issued? -/
def callsUpstream (es : List REvent) : Bool :=
  es.any (fun e => match e with | REvent.callUpstream _ _ _ _ _ => true | _ => false)

/-- The result of the upstream `fetch`. -/
structure UpstreamResp where
  ok : Bool
  status : Nat
  hasBody : Bool
  chunks : List (List Nat)
  errText : List Char
deriving Repr, DecidableEq

def streamHdrs : List REvent :=
  [REvent.hdr (S "Content-Type") (S "text/plain; charset=utf-8"),
   REvent.hdr (S "Cache-Control") (S "no-cache, no-transform"),
   REvent.hdr (S "X-Accel-Buffering") (S "no"),
   REvent.flush]

def allowedModels : List (List Char) :=
  [S "claude-haiku-4-5", S "claude-sonnet-4-5", S "claude-opus-4-5"]

def defaultModel : List Char := S "claude-haiku-4-5"

/-- `ALLOWED_MODELS.has(body.model) ? body.model : DEFAULT_MODEL`. -/
def modelOf (body : Json) : List Char :=
  match jsonGet body (S "model") with
  | some (Json.str m) => if allowedModels.any (fun a => a == m) then m else defaultModel
  | _ => defaultModel

def defaultSystemServer : List Char :=
  S "You are a helpful assistant. Do not mention any underlying model provider. If asked what you are, say you are a custom AI assistant."

def defaultSystemRebrand : List Char :=
  S "You are ClaudeX, made by M Alkindi.\nDo not mention any underlying model provider.\nIf asked what you are, reply exactly: \"I am ClaudeX, made by M Alkindi.\""

/-- `safeString(body.system, 4000) || <default>`. -/
def systemOf (deflt : List Char) (body : Json) : List Char :=
  let s := safeString (jsonGet body (S "system")) 4000
  if s == [] then deflt else s

/-- `req.body ?? {}`. -/
def effBody : Json → Json
  | Json.null => Json.obj []
  | v => v

def invalidMsgBody : List Char := S "\x7b\"error\":\"Invalid messages format\"\x7d"

/-- The shared tail of both handlers once streaming mode has begun: issue the
upstream call; on failure log the capped detail and attempt a 502, else pipe
the SSE body. -/
def streamTail (pf : List Char → List (List Char)) (deflt : List Char)
    (b : Json) (msgs : List NormMsg) (up : UpstreamResp) : List REvent :=
  streamHdrs ++
  [REvent.callUpstream (modelOf b) (systemOf deflt b) (tempOf b) (maxTokOf b) msgs] ++
  (if !up.ok || !up.hasBody then
    [REvent.logErr up.status (up.errText.take 5000), REvent.statusSet 502,
     REvent.resEnd (S "Upstream error")]
  else
    (pipeWrites pf up.chunks).map REvent.write ++ [REvent.resEnd []])

/-- The `/api/chat/stream` handler of `src/claude-chat/server.js`. -/
def handleServer (body : Json) (up : UpstreamResp) : List REvent :=
  match normalizeMessages (jsonGet (effBody body) (S "messages")) with
  | none => [REvent.statusSet 400, REvent.jsonBody invalidMsgBody]
  | some msgs => streamTail processFrameServer defaultSystemServer (effBody body) msgs up

def brandSentence : List Char := S "I am ClaudeX, made by M Alkindi."

/-- `isIdentityProbe`: test the probe regex against the text of the last
normalized message (`?.at(-1)?.content?.[0]?.text ?? ""`). -/
def isIdentityProbe (msgs : List NormMsg) : Bool :=
  probeScan none (match msgs.getLast? with | some m => m.text | none => [])

/-- The `/api/chat/stream` handler of `src/unnamed/part_000` (rebrand
variant, with the identity-probe short-circuit). -/
def handleRebrand (body : Json) (up : UpstreamResp) : List REvent :=
  match normalizeMessages (jsonGet (effBody body) (S "messages")) with
  | none => [REvent.statusSet 400, REvent.jsonBody invalidMsgBody]
  | some msgs =>
    if isIdentityProbe msgs then streamHdrs ++ [REvent.resEnd brandSentence]
    else streamTail processFrameRebrand defaultSystemRebrand (effBody body) msgs up

/-! ## Shared helper lemmas for the claim theorems -/

theorem normOne_some {m : Json} {msg : NormMsg} (h : normOne m = some msg) :
    (msg.role = S "user" ∨ msg.role = S "assistant") ∧ msg.text ≠ [] ∧
      msg.text = jsTrim (safeString (jsonGet m (S "content")) 12000) := by
  unfold normOne at h
  split at h
  · cases h
  · split at h
    · next r heq =>
      split at h
      · next hrole =>
        split at h
        · cases h
        · next htext =>
          cases h
          refine ⟨?_, by simpa using htext, rfl⟩
          simpa using hrole
      · cases h
    · cases h

theorem find?_eq_filter_head? {α : Type} (p : α → Bool) (l : List α) :
    l.find? p = (l.filter p).head? := by
  induction l with
  | nil => rfl
  | cons a l ih =>
    rw [List.find?_cons, List.filter_cons]
    cases hp : p a with
    | true => rfl
    | false => rw [if_neg (by decide)]; exact ih

/-! ## C5 — `normalizeMessages` invariant -/

/-- C5: for every JSON input, `normalizeMessages` returns either `null` or a
non-empty list whose every element has role `user` or `assistant` and text
that is non-empty after string coercion, truncation to 12,000 code units and
trimming; other elements are discarded silently (the function has no error
outcome besides `null`). -/
theorem C5_normalizeMessages_invariant (j : Option Json) :
    normalizeMessages j = none ∨
    ∃ l, normalizeMessages j = some l ∧ l ≠ [] ∧
      ∀ m ∈ l, (m.role = S "user" ∨ m.role = S "assistant") ∧ m.text ≠ [] ∧
        ∃ c, m.text = jsTrim (safeString c 12000) := by
  match j with
  | none => exact Or.inl rfl
  | some Json.null => exact Or.inl rfl
  | some (Json.bool b) => exact Or.inl rfl
  | some (Json.num r) => exact Or.inl rfl
  | some (Json.str s) => exact Or.inl rfl
  | some (Json.obj fs) => exact Or.inl rfl
  | some (Json.arr ms) =>
    by_cases hout : ms.filterMap normOne = []
    · left
      have he : normalizeMessages (some (Json.arr ms)) =
          if List.filterMap normOne ms == [] then none
          else some (List.filterMap normOne ms) := rfl
      rw [he, if_pos (show (List.filterMap normOne ms == []) = true from beq_iff_eq.mpr hout)]
    · right
      refine ⟨ms.filterMap normOne, ?_, hout, ?_⟩
      · have he : normalizeMessages (some (Json.arr ms)) =
            if List.filterMap normOne ms == [] then none
            else some (List.filterMap normOne ms) := rfl
        rw [he, if_neg (show ¬((List.filterMap normOne ms == []) = true) from
          fun hb => hout (beq_iff_eq.mp hb))]
      · intro m hm
        rw [List.mem_filterMap] at hm
        obtain ⟨a, _, ha⟩ := hm
        obtain ⟨h1, h2, h3⟩ := normOne_some ha
        exact ⟨h1, h2, jsonGet a (S "content"), h3⟩

theorem C5_witness :
    (normalizeMessages (some (Json.arr [Json.obj [(S "role", Json.str (S "user")),
        (S "content", Json.str (S "hi"))], Json.str (S "junk")])) = none ∨
      ∃ l, normalizeMessages (some (Json.arr [Json.obj [(S "role", Json.str (S "user")),
        (S "content", Json.str (S "hi"))], Json.str (S "junk")])) = some l ∧ l ≠ [] ∧
        ∀ m ∈ l, (m.role = S "user" ∨ m.role = S "assistant") ∧ m.text ≠ [] ∧
          ∃ c, m.text = jsTrim (safeString c 12000)) :=
  C5_normalizeMessages_invariant _

/-! ## C7 — numeric-field normalization -/

/-- C7: every finite numeric temperature is clamped into `[0, 1]` and
non-number or `NaN` inputs fall back to `0.3`; every finite numeric
`max_tokens` is clamped into `[64, 1500]` and floored, and non-number inputs
fall back to `800`; concrete cases: temperature `-5 ↦ 0`, `0.5 ↦ 0.5`,
`2 ↦ 1`, `"x" ↦ 0.3`; `max_tokens` `10 ↦ 64`, `500 ↦ 500`, `5000 ↦ 1500`. -/
theorem C7_clamping :
    (∀ q : ℚ, clampNumber (some (JsNum.val q)) 0 1 (3 / 10) = min 1 (max 0 q) ∧
      0 ≤ clampNumber (some (JsNum.val q)) 0 1 (3 / 10) ∧
      clampNumber (some (JsNum.val q)) 0 1 (3 / 10) ≤ 1) ∧
    clampNumber none 0 1 (3 / 10) = 3 / 10 ∧
    clampNumber (some JsNum.nan) 0 1 (3 / 10) = 3 / 10 ∧
    (∀ q : ℚ, Int.floor (clampNumber (some (JsNum.val q)) 64 1500 800) =
        Int.floor (min 1500 (max 64 q)) ∧
      (64 : ℤ) ≤ Int.floor (clampNumber (some (JsNum.val q)) 64 1500 800) ∧
      Int.floor (clampNumber (some (JsNum.val q)) 64 1500 800) ≤ 1500) ∧
    clampNumber none 64 1500 800 = 800 ∧
    tempOf (Json.obj [(S "temperature", Json.num (S "-5"))]) = 0 ∧
    tempOf (Json.obj [(S "temperature", Json.num (S "0.5"))]) = mkRat 1 2 ∧
    mkRat 1 2 = 1 / 2 ∧
    tempOf (Json.obj [(S "temperature", Json.num (S "2"))]) = 1 ∧
    tempOf (Json.obj [(S "temperature", Json.str (S "x"))]) = 3 / 10 ∧
    maxTokOf (Json.obj [(S "max_tokens", Json.num (S "10"))]) = 64 ∧
    maxTokOf (Json.obj [(S "max_tokens", Json.num (S "500"))]) = 500 ∧
    maxTokOf (Json.obj [(S "max_tokens", Json.num (S "5000"))]) = 1500 ∧
    maxTokOf (Json.obj []) = 800 := by
  refine ⟨?_, rfl, rfl, ?_, rfl, ?_, ?_, ?_, ?_, ?_, ?_, ?_, ?_, ?_⟩
  · intro q
    refine ⟨rfl, ?_, ?_⟩
    · exact le_min (by norm_num) (le_max_left 0 q)
    · exact min_le_left 1 _
  · intro q
    refine ⟨rfl, ?_, ?_⟩
    · have h1 : (64 : ℚ) ≤ min 1500 (max 64 q) :=
        le_min (by norm_num) (le_max_left 64 q)
      calc (64 : ℤ) = Int.floor (64 : ℚ) := by norm_num
        _ ≤ _ := Int.floor_le_floor h1
    · have h2 : clampNumber (some (JsNum.val q)) 64 1500 800 ≤ 1500 :=
        min_le_left 1500 _
      calc Int.floor (clampNumber (some (JsNum.val q)) 64 1500 800)
          ≤ Int.floor (1500 : ℚ) := Int.floor_le_floor h2
        _ = 1500 := by norm_num
  · decide
  · decide
  · norm_num [Rat.mkRat_eq_divInt, Rat.divInt_eq_div]
  · decide
  · rfl
  · decide
  · decide
  · decide
  · decide

/-! ## C8 — zero surviving messages ⇒ 400, no upstream call -/

/-- C8: when normalization yields no messages (including a missing or
non-list `messages` field) both handlers answer 400 with the
`Invalid messages format` JSON body and never issue the upstream request. -/
theorem C8_invalid_messages_400 (body : Json) (up : UpstreamResp)
    (h : normalizeMessages (jsonGet (effBody body) (S "messages")) = none) :
    handleServer body up = [REvent.statusSet 400, REvent.jsonBody invalidMsgBody] ∧
    handleRebrand body up = [REvent.statusSet 400, REvent.jsonBody invalidMsgBody] ∧
    callsUpstream (handleServer body up) = false ∧
    callsUpstream (handleRebrand body up) = false ∧
    wireStatus 200 (handleServer body up) = 400 ∧
    wireStatus 200 (handleRebrand body up) = 400 ∧
    clientBody (handleServer body up) = invalidMsgBody ∧
    clientBody (handleRebrand body up) = invalidMsgBody := by
  have hs : handleServer body up = [REvent.statusSet 400, REvent.jsonBody invalidMsgBody] := by
    unfold handleServer
    rw [h]
  have hr : handleRebrand body up = [REvent.statusSet 400, REvent.jsonBody invalidMsgBody] := by
    unfold handleRebrand
    rw [h]
  exact ⟨hs, hr, by rw [hs]; rfl, by rw [hr]; rfl, by rw [hs]; rfl,
    by rw [hr]; rfl, by rw [hs]; rfl, by rw [hr]; rfl⟩

theorem C8_witness :
    normalizeMessages (jsonGet (effBody (Json.obj [(S "messages", Json.str (S "x"))]))
      (S "messages")) = none ∧
    handleServer (Json.obj [(S "messages", Json.str (S "x"))]) ⟨false, 503, false, [], []⟩ =
      [REvent.statusSet 400, REvent.jsonBody invalidMsgBody] ∧
    callsUpstream (handleRebrand (Json.obj [(S "messages", Json.str (S "x"))])
      ⟨false, 503, false, [], []⟩) = false := by
  have h : normalizeMessages (jsonGet (effBody (Json.obj [(S "messages", Json.str (S "x"))]))
      (S "messages")) = none := rfl
  obtain ⟨h1, _, _, h4, _⟩ := C8_invalid_messages_400
    (Json.obj [(S "messages", Json.str (S "x"))]) ⟨false, 503, false, [], []⟩ h
  exact ⟨h, h1, h4⟩

/-! ## C10 — only non-empty string deltas are written -/

/-- C10: a parsed `content_block_delta` payload produces no write when
`delta.text` is missing, not a string, or empty, and exactly one write of the
rewritten text when it is a non-empty string. -/
theorem C10_delta_writes (rw : List Char → List Char) (p : Json)
    (h : jsonTypeIs p (S "content_block_delta") = true) :
    (deltaTextOf p = none → payloadWrites rw p = []) ∧
    (deltaTextOf p = some [] → payloadWrites rw p = []) ∧
    (∀ t, deltaTextOf p = some t → t ≠ [] → payloadWrites rw p = [rw t]) := by
  have herr : jsonTypeIs p (S "error") = false := by
    unfold jsonTypeIs at h ⊢
    cases hg : jsonGet p (S "type") with
    | none => rw [hg] at h
    | some v =>
      rw [hg] at h
      cases v with
      | str t =>
        simp only [beq_iff_eq] at h
        subst h
        decide
      | null => exact Bool.noConfusion h
      | bool b => exact Bool.noConfusion h
      | num r => exact Bool.noConfusion h
      | arr l => exact Bool.noConfusion h
      | obj fs => exact Bool.noConfusion h
  refine ⟨?_, ?_, ?_⟩
  · intro hd
    simp [payloadWrites, h, herr, hd]
  · intro hd
    simp [payloadWrites, h, herr, hd]
  · intro t hd ht
    simp [payloadWrites, h, herr, hd, ht]

theorem C10_witness :
    jsonTypeIs (Json.obj [(S "type", Json.str (S "content_block_delta"))])
      (S "content_block_delta") = true ∧
    payloadWrites enforceBranding
      (Json.obj [(S "type", Json.str (S "content_block_delta"))]) = [] ∧
    payloadWrites enforceBranding
      (Json.obj [(S "type", Json.str (S "content_block_delta")),
        (S "delta", Json.obj [(S "text", Json.str (S "ok"))])]) =
      [enforceBranding (S "ok")] := by
  refine ⟨by decide, ?_, ?_⟩
  · exact (C10_delta_writes enforceBranding _ (by decide)).1 (by decide)
  · exact (C10_delta_writes enforceBranding _ (by decide)).2.2 (S "ok") (by decide) (by decide)

/-! ## C2 — processing of the `data: ` lines of a frame (corrected) -/

def hiPayload : List Char := S "\x7b\"type\":\"content_block_delta\",\"delta\":\x7b\"text\":\"Hi\"\x7d\x7d"

def therePayload : List Char := S "\x7b\"type\":\"content_block_delta\",\"delta\":\x7b\"text\":\" there\"\x7d\x7d"

/-- A single SSE frame with one event line and two `data: ` delta lines. -/
def twoDeltaFrame : List Char :=
  S "event: x\n" ++ dataHead ++ hiPayload ++ ['\n'] ++ dataHead ++ therePayload

/-- C2 counterexample: on a frame with two `content_block_delta` `data: `
lines, per-line processing (what the claim asserts) yields two writes, but
`src/claude-chat/server.js` examines only the first `data: ` line via
`.find(...)` and yields one. -/
theorem C2_counterexample :
    (dataLinesOf twoDeltaFrame).length = 2 ∧
    (dataLinesOf twoDeltaFrame).flatMap (processDataLine enforceNoProviderLeak) =
      [S "Hi", S " there"] ∧
    processFrameServer twoDeltaFrame = [S "Hi"] ∧
    ([S "Hi"] : List (List Char)) ≠ [S "Hi", S " there"] := by
  refine ⟨rfl, rfl, rfl, ?_⟩
  decide

/-- C2 amended: the rebrand variant processes every `data: ` line of a frame
in order (one write per non-empty delta line), while `server.js` processes
only the first `data: ` line of each frame. -/
theorem C2_data_lines (frame : List Char) :
    processFrameRebrand frame =
      (dataLinesOf frame).flatMap (processDataLine enforceBranding) ∧
    processFrameServer frame =
      (((dataLinesOf frame).head?).map (processDataLine enforceNoProviderLeak)).getD [] ∧
    processFrameRebrand twoDeltaFrame = [S "Hi", S " there"] ∧
    processFrameServer twoDeltaFrame = [S "Hi"] := by
  refine ⟨rfl, ?_, rfl, rfl⟩
  unfold processFrameServer dataLinesOf
  rw [find?_eq_filter_head?]
  cases ((jsSplit ['\n'] frame).filter (fun line => leadEq dataHead line)).head? with
  | none => rfl
  | some l => rfl

/-! ## C4 — malformed JSON lines are non-fatal (corrected) -/

def badLine : List Char := S "data: notjson"

def hiLine : List Char := dataHead ++ hiPayload

def thereLine : List Char := dataHead ++ therePayload

/-- C4 counterexample: in `src/claude-chat/server.js` a malformed first
`data: ` line makes `.find(...)` pick it, the parse failure `continue`s, and
the valid `data: ` line after it in the same frame is never processed — the
malformed line suppresses a valid delta, so more than "that single line" is
skipped. -/
theorem C4_counterexample :
    processFrameServer (badLine ++ '\n' :: hiLine) = [] ∧
    processFrameServer hiLine = [S "Hi"] := by
  exact ⟨rfl, rfl⟩

/-- C4 amended: in the rebrand variant a malformed `data: ` line is skipped
in isolation — inserting it anywhere in the line sequence leaves all other
writes unchanged — and a malformed line between two valid deltas suppresses
neither; in `server.js` the same holds only when the malformed line is not
the first `data: ` line of its frame. -/
theorem C4_malformed_non_fatal :
    (∀ (pre post : List (List Char)) (bad : List Char),
      leadEq dataHead bad = true →
      jsonParse (jsTrim (bad.drop dataHead.length)) = none →
      ((pre ++ bad :: post).filter (fun l => leadEq dataHead l)).flatMap
          (processDataLine enforceBranding) =
        ((pre ++ post).filter (fun l => leadEq dataHead l)).flatMap
          (processDataLine enforceBranding)) ∧
    processFrameRebrand (hiLine ++ '\n' :: badLine ++ '\n' :: thereLine) =
      [S "Hi", S " there"] ∧
    processFrameRebrand (hiLine ++ '\n' :: thereLine) = [S "Hi", S " there"] ∧
    processFrameServer (hiLine ++ '\n' :: badLine ++ '\n' :: thereLine) = [S "Hi"] := by
  refine ⟨?_, rfl, rfl, rfl⟩
  intro pre post bad hb hp
  have hpd : processDataLine enforceBranding bad = [] := by
    unfold processDataLine
    split
    · rfl
    · rw [hp]
  simp [List.filter_append, List.filter_cons, hb, List.flatMap_append, hpd]

theorem C4_witness :
    leadEq dataHead badLine = true ∧
    jsonParse (jsTrim (badLine.drop dataHead.length)) = none ∧
    (([hiLine] ++ badLine :: [thereLine]).filter (fun l => leadEq dataHead l)).flatMap
        (processDataLine enforceBranding) =
      (([hiLine] ++ [thereLine]).filter (fun l => leadEq dataHead l)).flatMap
        (processDataLine enforceBranding) :=
  ⟨rfl, rfl, C4_malformed_non_fatal.1 [hiLine] [thereLine] badLine rfl rfl⟩

/-! ## C6 — identity probes short-circuit the upstream call -/

/-- C6: in the rebrand variant, whenever the last normalized message matches
the identity-probe pattern, no upstream request is issued and the whole
successful (HTTP 200) response body is exactly the fixed branded sentence. -/
theorem C6_identity_probe (body : Json) (up : UpstreamResp) (msgs : List NormMsg)
    (hn : normalizeMessages (jsonGet (effBody body) (S "messages")) = some msgs)
    (hp : isIdentityProbe msgs = true) :
    handleRebrand body up = streamHdrs ++ [REvent.resEnd brandSentence] ∧
    callsUpstream (handleRebrand body up) = false ∧
    clientBody (handleRebrand body up) = brandSentence ∧
    wireStatus 200 (handleRebrand body up) = 200 := by
  have he : handleRebrand body up = streamHdrs ++ [REvent.resEnd brandSentence] := by
    unfold handleRebrand
    rw [hn]
    show (if isIdentityProbe msgs = true then streamHdrs ++ [REvent.resEnd brandSentence]
      else streamTail processFrameRebrand defaultSystemRebrand (effBody body) msgs up) =
      streamHdrs ++ [REvent.resEnd brandSentence]
    rw [if_pos hp]
  exact ⟨he, by rw [he]; rfl, by rw [he]; rfl, by rw [he]; rfl⟩

def probeBody : Json :=
  Json.obj [(S "messages", Json.arr [Json.obj [(S "role", Json.str (S "user")),
    (S "content", Json.str (S "what model are you?"))]])]

theorem C6_witness :
    normalizeMessages (jsonGet (effBody probeBody) (S "messages")) =
      some [⟨S "user", S "what model are you?"⟩] ∧
    isIdentityProbe [(⟨S "user", S "what model are you?"⟩ : NormMsg)] = true ∧
    handleRebrand probeBody ⟨true, 200, true, [], []⟩ =
      streamHdrs ++ [REvent.resEnd brandSentence] ∧
    callsUpstream (handleRebrand probeBody ⟨true, 200, true, [], []⟩) = false :=
  ⟨rfl, rfl,
    (C6_identity_probe probeBody ⟨true, 200, true, [], []⟩
      [⟨S "user", S "what model are you?"⟩] rfl rfl).1,
    (C6_identity_probe probeBody ⟨true, 200, true, [], []⟩
      [⟨S "user", S "what model are you?"⟩] rfl rfl).2.1⟩

/-! ## C3 — upstream failure handling (code bug) -/

def c3Body : Json :=
  Json.obj [(S "messages", Json.arr [Json.obj [(S "role", Json.str (S "user")),
    (S "content", Json.str (S "hi"))]])]

def c3Up : UpstreamResp := ⟨false, 503, false, [], S "upstream detail"⟩

/-- C3, evaluated at the failing input: both handlers flush the streaming
headers (with the then-current status 200) *before* issuing the upstream
call, so when the upstream fails the later `res.status(502)` can no longer
change the wire status: the client receives HTTP 200 with the streaming
headers and body `Upstream error`, not the 502 the claim (and the code's own
`res.status(502)`) intends.  The capped upstream detail goes only to the
log. -/
theorem C3_code_bug :
    handleServer c3Body c3Up =
      streamHdrs ++
      [REvent.callUpstream defaultModel defaultSystemServer (3 / 10) 800
        [⟨S "user", S "hi"⟩],
       REvent.logErr 503 (S "upstream detail"), REvent.statusSet 502,
       REvent.resEnd (S "Upstream error")] ∧
    handleRebrand c3Body c3Up =
      streamHdrs ++
      [REvent.callUpstream defaultModel defaultSystemRebrand (3 / 10) 800
        [⟨S "user", S "hi"⟩],
       REvent.logErr 503 (S "upstream detail"), REvent.statusSet 502,
       REvent.resEnd (S "Upstream error")] ∧
    wireStatus 200 (handleServer c3Body c3Up) = 200 ∧
    wireStatus 200 (handleRebrand c3Body c3Up) = 200 ∧
    wireStatus 200 (handleServer c3Body c3Up) ≠ 502 ∧
    clientBody (handleServer c3Body c3Up) = S "Upstream error" := by
  refine ⟨rfl, rfl, rfl, rfl, ?_, rfl⟩
  intro hc
  rw [show wireStatus 200 (handleServer c3Body c3Up) = 200 from rfl] at hc
  cases hc

/-! ## C1 — chunk-invariance of the SSE pipe -/

/-- C1: feeding the same upstream byte stream in any two chunkings — splits
mid multi-byte character, mid-line or mid-frame included — produces the
identical ordered sequence of client writes, in both variants. -/
theorem C1_chunk_invariance (c1 c2 : List (List Nat)) (h : c1.flatten = c2.flatten) :
    pipeWrites processFrameServer c1 = pipeWrites processFrameServer c2 ∧
    pipeWrites processFrameRebrand c1 = pipeWrites processFrameRebrand c2 := by
  constructor <;> rw [pipeWrites_eq_batch, pipeWrites_eq_batch, h]

def wHead : List Char := S "data: \x7b\"type\":\"content_block_delta\",\"delta\":\x7b\"text\":\"h"

/-- One SSE frame whose delta text is `hé!`, as raw UTF-8 bytes (`é` is the
two bytes `0xC3 0xA9`). -/
def wBytes : List Nat :=
  wHead.map Char.toNat ++ [0xC3, 0xA9] ++ (S "!\"\x7d\x7d\n\n").map Char.toNat

def wChunks1 : List (List Nat) := [wBytes]

/-- The same bytes split in two, the cut falling between the two bytes of
`é`. -/
def wChunks2 : List (List Nat) :=
  [wBytes.take (wHead.length + 1), wBytes.drop (wHead.length + 1)]

theorem C1_witness :
    wChunks1.flatten = wChunks2.flatten ∧
    pipeWrites processFrameServer wChunks1 = pipeWrites processFrameServer wChunks2 ∧
    pipeWrites processFrameRebrand wChunks1 = pipeWrites processFrameRebrand wChunks2 ∧
    pipeWrites processFrameRebrand wChunks2 = [S "hé!"] := by
  have h : wChunks1.flatten = wChunks2.flatten := by
    show wBytes ++ [] = wBytes.take (wHead.length + 1) ++ (wBytes.drop (wHead.length + 1) ++ [])
    rw [List.append_nil, List.append_nil, List.take_append_drop]
  exact ⟨h, (C1_chunk_invariance wChunks1 wChunks2 h).1,
    (C1_chunk_invariance wChunks1 wChunks2 h).2, rfl⟩

/-! ## C9 — the redact rewriter (corrected)

Specification-level replacement, following the claim's words: repeatedly find
the first (leftmost) match and replace it, resuming after its last
character. -/

/-- Position and length of the first match of `m` in `s` (boundary context
`prev`). -/
def findMatch (m : Option Char → List Char → Option Nat) :
    Option Char → List Char → Option (Nat × Nat)
  | _, [] => none
  | prev, c :: cs =>
    match m prev (c :: cs) with
    | some (n + 1) => some (0, n + 1)
    | _ => (findMatch m (some c) cs).map (fun p => (p.1 + 1, p.2))

theorem findMatch_pos {m : Option Char → List Char → Option Nat}
    {prev : Option Char} {s : List Char} {i n : Nat}
    (h : findMatch m prev s = some (i, n)) : 1 ≤ n ∧ s ≠ [] := by
  induction s generalizing prev i with
  | nil => cases h
  | cons c cs ih =>
    refine ⟨?_, by simp⟩
    rw [findMatch] at h
    match hm : m prev (c :: cs) with
    | some (k + 1) =>
      rw [hm] at h
      simp only at h
      cases h
      omega
    | some 0 =>
      rw [hm] at h
      simp only [Option.map_eq_some'] at h
      obtain ⟨⟨i', n'⟩, hp, he⟩ := h
      cases he
      exact (ih hp).1
    | none =>
      rw [hm] at h
      simp only [Option.map_eq_some'] at h
      obtain ⟨⟨i', n'⟩, hp, he⟩ := h
      cases he
      exact (ih hp).1

/-- The claim's reading of a global replace: replace the leftmost match and
continue after it. -/
def specReplace (m : Option Char → List Char → Option Nat) (repl : List Char) :
    Option Char → List Char → List Char
  | prev, s =>
    match h : findMatch m prev s with
    | none => s
    | some (i, n) =>
      s.take i ++ repl ++
        specReplace m repl (some (s.getD (i + n - 1) ' ')) (s.drop (i + n))
termination_by _ s => s.length
decreasing_by
  obtain ⟨hn, hs⟩ := findMatch_pos h
  have : 0 < s.length := List.length_pos.mpr hs
  simp only [List.length_drop]
  omega

theorem specReplace_eq_none {m : Option Char → List Char → Option Nat}
    {repl : List Char} {prev : Option Char} {s : List Char}
    (h : findMatch m prev s = none) : specReplace m repl prev s = s := by
  rw [specReplace]
  split
  · rfl
  · next i n heq => rw [h] at heq; cases heq

theorem specReplace_eq_some {m : Option Char → List Char → Option Nat}
    {repl : List Char} {prev : Option Char} {s : List Char} {i n : Nat}
    (h : findMatch m prev s = some (i, n)) :
    specReplace m repl prev s =
      s.take i ++ repl ++
        specReplace m repl (some (s.getD (i + n - 1) ' ')) (s.drop (i + n)) := by
  rw [specReplace]
  split
  · next heq => rw [h] at heq; cases heq
  · next i' n' heq =>
    rw [h] at heq
    cases heq
    rfl

/-- The source's left-to-right scanning replace computes exactly the
specification-level "replace every leftmost match" function. -/
theorem scanGo_eq_specReplace (m : Option Char → List Char → Option Nat)
    (repl : List Char) :
    ∀ (k : Nat) (s : List Char) (prev : Option Char), s.length ≤ k →
      scanGo m repl prev s = specReplace m repl prev s := by
  intro k
  induction k with
  | zero =>
    intro s prev hs
    have h0 : s = [] := List.length_eq_zero.mp (Nat.le_zero.mp hs)
    subst h0
    rw [scanGo_nil,
      specReplace_eq_none (show findMatch m prev ([] : List Char) = none from rfl)]
  | succ k ih =>
    intro s prev hs
    match s with
    | [] =>
      rw [scanGo_nil,
        specReplace_eq_none (show findMatch m prev ([] : List Char) = none from rfl)]
    | c :: cs =>
      rw [scanGo_cons]
      simp only [List.length_cons] at hs
      cases hm : m prev (c :: cs) with
      | some n =>
        cases n with
        | succ j =>
          -- a match at this very position
          have hf : findMatch m prev (c :: cs) = some (0, j + 1) := by
            rw [findMatch, hm]
          rw [specReplace_eq_some hf]
          simp only [List.take_zero, List.nil_append, Nat.zero_add,
            Nat.add_sub_cancel]
          rw [ih ((c :: cs).drop (j + 1)) (some ((c :: cs).getD j ' '))
            (by simp only [List.length_drop, List.length_cons]; omega)]
        | zero =>
          -- a zero-length answer is no match: skip this character
          rw [ih cs (some c) (by omega)]
          cases hfc : findMatch m (some c) cs with
          | none =>
            have hf : findMatch m prev (c :: cs) = none := by
              rw [findMatch, hm, hfc]
              rfl
            rw [specReplace_eq_none hf, specReplace_eq_none hfc]
          | some p =>
            obtain ⟨i, n⟩ := p
            obtain ⟨hn, -⟩ := findMatch_pos hfc
            have hf : findMatch m prev (c :: cs) = some (i + 1, n) := by
              rw [findMatch, hm, hfc]
              rfl
            rw [specReplace_eq_some hf, specReplace_eq_some hfc]
            have h1 : i + 1 + n - 1 = (i + n - 1) + 1 := by omega
            have h2 : (c :: cs).getD (i + 1 + n - 1) ' ' = cs.getD (i + n - 1) ' ' := by
              rw [h1]
              rfl
            have h3 : (c :: cs).drop (i + 1 + n) = cs.drop (i + n) := by
              rw [show i + 1 + n = (i + n) + 1 from by omega]
              rfl
            rw [h2, h3]
            rfl
      | none =>
        rw [ih cs (some c) (by omega)]
        cases hfc : findMatch m (some c) cs with
        | none =>
          have hf : findMatch m prev (c :: cs) = none := by
            rw [findMatch, hm, hfc]
            rfl
          rw [specReplace_eq_none hf, specReplace_eq_none hfc]
        | some p =>
          obtain ⟨i, n⟩ := p
          obtain ⟨hn, -⟩ := findMatch_pos hfc
          have hf : findMatch m prev (c :: cs) = some (i + 1, n) := by
            rw [findMatch, hm, hfc]
            rfl
          rw [specReplace_eq_some hf, specReplace_eq_some hfc]
          have h1 : i + 1 + n - 1 = (i + n - 1) + 1 := by omega
          have h2 : (c :: cs).getD (i + 1 + n - 1) ' ' = cs.getD (i + n - 1) ' ' := by
            rw [h1]
            rfl
          have h3 : (c :: cs).drop (i + 1 + n) = cs.drop (i + n) := by
            rw [show i + 1 + n = (i + n) + 1 from by omega]
            rfl
          rw [h2, h3]
          rfl

/-- C9 counterexample: on `"GPT trained by x."` the vendor pass consumes
`GPT ` (the `[-\s]?` of the pattern swallows the space), gluing the
placeholder onto `trained`, so the attribution pass no longer sees a word
boundary and the clause `trained by x.` survives — it is not removed up to
the period as the claim states. -/
theorem C9_counterexample :
    enforceNoProviderLeak (S "GPT trained by x.") = S "this assistanttrained by x." ∧
    (findSep (S "trained by") (enforceNoProviderLeak (S "GPT trained by x."))).isSome = true ∧
    (findSep (S "trained by x.") (S "GPT trained by x.")).isSome = true := by
  exact ⟨rfl, rfl, rfl⟩

/-- C9 amended: `enforceNoProviderLeak` is the pure composition of two
specification-level global replaces — every leftmost whole-word vendor /
model mention (case-insensitive, `GPT` with an optional separator and
digits) is replaced by `this assistant`, and then every remaining
word-boundary attribution phrase (`trained by`, `developed by`,
`powered by`, `built by`, `created by`) is removed with the following text
up to and including the next period or line break.  Because the passes are
sequential, a clause whose leading boundary character was consumed by a
vendor replacement (the counterexample) is not removed. -/
theorem C9_redact_rewriter (s : List Char) :
    enforceNoProviderLeak s =
      specReplace (attribMatch attribPhrasesRedact) [] none
        (specReplace vendorMatch (S "this assistant") none s) := by
  unfold enforceNoProviderLeak
  by_cases h0 : s = []
  · subst h0
    rw [specReplace_eq_none
        (show findMatch vendorMatch none ([] : List Char) = none from rfl),
      specReplace_eq_none
        (show findMatch (attribMatch attribPhrasesRedact) none ([] : List Char) = none from rfl)]
    rfl
  · rw [if_neg (by simpa using h0),
      scanGo_eq_specReplace vendorMatch (S "this assistant") s.length s none le_rfl,
      scanGo_eq_specReplace (attribMatch attribPhrasesRedact) []
        (specReplace vendorMatch (S "this assistant") none s).length _ none le_rfl]

theorem C9_redact_witness :
    specReplace (attribMatch attribPhrasesRedact) [] none
        (specReplace vendorMatch (S "this assistant") none (S "I use Claude daily.")) =
      enforceNoProviderLeak (S "I use Claude daily.") ∧
    enforceNoProviderLeak (S "I use Claude daily.") = S "I use this assistant daily." :=
  ⟨(C9_redact_rewriter (S "I use Claude daily.")).symm, rfl⟩

end ClaudeX
